import Mathlib

/-!
Verification development for the transletta translation compiler core.

The definitions below are a shallow embedding of the TypeScript sources:
  * `Translation`, `Translation.get`, `Translation.getNeighbor`,
    `Translation.serialize` / `serializeWithContext` / `traverse`
    (packages/transletta/src/cli/index.ts, the `Translation` entity),
  * `EMBEDDING_REGEX`, `PARAMETER_REGEX` (common/constants),
  * `TranslationManager.compile` / cache (core/managers/translation-manager),
  * `Transletta.compile` / `validateSchema` / `extractKeys` (transletta.ts).

JavaScript strings are modelled at the character level (all inputs of
interest are ASCII, so UTF-16 unit semantics and `Char` semantics agree).
TOML scalar kinds other than strings, and TOML tables/arrays, are modelled
by `TomlValue`; other scalar kinds (numbers, booleans, dates) do not occur
in any claim and are omitted from the value universe.
-/

deriving instance DecidableEq for Except

namespace Transletta

/-- A parsed TOML value as produced by `toml.parse` (smol-toml): a string
leaf, a table (JS object, insertion-ordered), or an array. -/
inductive TomlValue where
  | str (s : String)
  | table (entries : List (String × TomlValue))
  | arr (elems : List TomlValue)
deriving Repr, Inhabited

/-- Association-list lookup, modelling JS object / `Map.get` access
(`undefined` becomes `none`). -/
def assocLookup {α : Type} : List (String × α) → String → Option α
  | [], _ => none
  | (k, v) :: rest, key => if k = key then some v else assocLookup rest key

/-- JS object property assignment `obj[k] = v`: overwrites in place keeping
the key's original position, appends when the key is new. -/
def setAssoc {α : Type} (l : List (String × α)) (k : String) (v : α) : List (String × α) :=
  if l.any (fun kv => kv.1 = k) then
    l.map (fun kv => if kv.1 = k then (k, v) else kv)
  else l ++ [(k, v)]

/-- Character class of `[a-zA-Z0-9._-]` in the placeholder regexes. -/
def isWordChar (c : Char) : Bool :=
  (('a' ≤ c) && (c ≤ 'z')) || (('A' ≤ c) && (c ≤ 'Z')) ||
  (('0' ≤ c) && (c ≤ '9')) || c = '.' || c = '_' || c = '-'

/-- Regex `\s` for the inputs of interest (common ASCII whitespace). -/
def isJsSpace (c : Char) : Bool :=
  c = ' ' || c = '\t' || c = '\n' || c = '\r' || c = '\x0b' || c = '\x0c'

/-- Does `sub` occur as a contiguous substring of `hay`
(JS `String.prototype.includes`)? -/
def containsSub (hay sub : List Char) : Bool :=
  match hay with
  | [] => sub.isEmpty
  | _ :: t => sub.isPrefixOf hay || containsSub t sub

/-- JS `s.includes(sub)`. -/
def sIncludes (s sub : String) : Bool := containsSub s.data sub.data

/-- JS `String.prototype.replace` with string pattern and string
replacement: replaces the first occurrence only.  (Replacement-pattern
sequences such as a dollar sign followed by an ampersand are not modelled;
no resolved value in any claim contains them.) -/
def replaceFirstChars (hay pat repl : List Char) : List Char :=
  match hay with
  | [] => []
  | h :: t =>
    if pat.isPrefixOf (h :: t) then repl ++ (h :: t).drop pat.length
    else h :: replaceFirstChars t pat repl

/-- JS `value.replace(pat, repl)` on strings. -/
def jsReplaceFirst (s pat repl : String) : String :=
  String.mk (replaceFirstChars s.data pat.data repl.data)

/-- One attempted match of `EMBEDDING_REGEX`
(`\x7b\s*@([a-zA-Z0-9._-]+)(?:\.[a-zA-Z0-9._-]+)*\s*\x7d`) anchored at the
head of the input.  Because the capture class already contains the dot, a
successful match captures the whole word-character run after the `@`;
returns `(matched text, captured group, remaining input)`. -/
def matchEmbeddingAt (cs : List Char) : Option (List Char × List Char × List Char) :=
  match cs with
  | '\x7b' :: cs1 =>
    let ws1 := cs1.takeWhile isJsSpace
    let cs2 := cs1.dropWhile isJsSpace
    (match cs2 with
     | '@' :: cs3 =>
       let run := cs3.takeWhile isWordChar
       let cs4 := cs3.dropWhile isWordChar
       if run.isEmpty then none
       else
         let ws2 := cs4.takeWhile isJsSpace
         let cs5 := cs4.dropWhile isJsSpace
         (match cs5 with
          | '\x7d' :: rest =>
            some ('\x7b' :: ws1 ++ '@' :: run ++ ws2 ++ ['\x7d'], run, rest)
          | _ => none)
     | _ => none)
  | _ => none

/-- Global scan of `EMBEDDING_REGEX` (flag `g`): leftmost non-overlapping
matches, as `(matched text, captured path)` pairs.  The fuel argument is
initialised to the input length, which is sufficient because every step
consumes at least one character. -/
def embedScanGo : Nat → List Char → List (String × String)
  | 0, _ => []
  | _ + 1, [] => []
  | n + 1, c :: cs =>
    match matchEmbeddingAt (c :: cs) with
    | some (m, g, rest) => (String.mk m, String.mk g) :: embedScanGo n rest
    | none => embedScanGo n cs

/-- All matches of `EMBEDDING_REGEX` in a string value
(`value.match(EMBEDDING_REGEX)` plus the per-match group extraction the
source performs with `exec`). -/
def embedScan (cs : List Char) : List (String × String) := embedScanGo cs.length cs

/-- One attempted match of `PARAMETER_REGEX` (`\x7b([a-zA-Z0-9._-]+)\x7d`)
anchored at the head of the input; returns `(captured name, remaining)`. -/
def matchParamAt (cs : List Char) : Option (List Char × List Char) :=
  match cs with
  | '\x7b' :: cs1 =>
    let run := cs1.takeWhile isWordChar
    let cs2 := cs1.dropWhile isWordChar
    if run.isEmpty then none
    else
      (match cs2 with
       | '\x7d' :: rest => some (run, rest)
       | _ => none)
  | _ => none

/-- Global scan of `PARAMETER_REGEX`; each entry is the parameter name the
source derives as `match.slice(1, -1).trim()` (the trim is the identity
because the capture class contains no whitespace). -/
def paramScanGo : Nat → List Char → List String
  | 0, _ => []
  | _ + 1, [] => []
  | n + 1, c :: cs =>
    match matchParamAt (c :: cs) with
    | some (run, rest) => String.mk run :: paramScanGo n rest
    | none => paramScanGo n cs

/-- All parameter names matched in a string value. -/
def paramScan (cs : List Char) : List String := paramScanGo cs.length cs

/-- JS `s.startsWith(p)` (char-level, kernel-reducible). -/
def sStartsWith (s p : String) : Bool := p.data.isPrefixOf s.data

/-- Parse of a canonical decimal property key (JS array index semantics:
`arr["7"]` hits element 7, a non-canonical spelling like `"07"` misses). -/
def charsToNat? (cs : List Char) : Option Nat :=
  if cs ≠ [] && cs.all (fun c => c.isDigit) then
    some (cs.foldl (fun n c => n * 10 + (c.toNat - 48)) 0)
  else none

/-- `fullPath.indexOf('.')` followed by the two slices: splits at the first
dot; the second component is empty when there is no dot. -/
def splitFirstDot (s : String) : String × String :=
  let cs := s.data
  let pre := cs.takeWhile (fun c => c ≠ '.')
  if pre.length = cs.length then (s, "")
  else (String.mk pre, String.mk (cs.drop (pre.length + 1)))

mutual

/-- JS `String()` coercion of a resolved value as used by
`value.replace(match, resolvedValue)`: strings are themselves, plain
objects print as `[object Object]`, arrays join their coerced elements
with commas. -/
def jsToString : TomlValue → String
  | .str s => s
  | .table _ => "[object Object]"
  | .arr xs => jsToStringList xs

/-- Comma-joined coercion of array elements (JS `Array.prototype.toString`). -/
def jsToStringList : List TomlValue → String
  | [] => ""
  | [x] => jsToString x
  | x :: y :: rest => jsToString x ++ "," ++ jsToStringList (y :: rest)

end

/-- Splits a (possibly `@`-prefixed) dotted name into its head segment and
remaining segments: `parseNeighborName` of the source
(`name.replace(/^@/, '').split('.')`, then `shift`). -/
def splitSegsGo (acc : List Char) : List Char → List String
  | [] => [String.mk acc.reverse]
  | '.' :: rest => String.mk acc.reverse :: splitSegsGo [] rest
  | c :: rest => splitSegsGo (c :: acc) rest

/-- JS `s.split('.')` (never returns an empty array). -/
def splitOnDots (s : String) : List String := splitSegsGo [] s.data

/-- `Translation.parseNeighborName`. -/
def parseNeighborName (name : String) : String × List String :=
  let stripped := if sStartsWith name "@" then String.mk (name.data.drop 1) else name
  match splitOnDots stripped with
  | [] => (name, [])
  | h :: t => (h, t)

/-- A translation unit: `Translation` of the source, with `data` the table
produced by `toml.parse` of the file content.  The `manager` back-pointer
of the source is modelled by passing the store explicitly. -/
structure Translation where
  name : String
  locale : String
  path : String
  data : List (String × TomlValue)
deriving Repr, Inhabited

/-- The payload of a `TranslettaSerializationError`, as exposed by
`getDiagnosticInfo`: owning unit's name and path plus the two messages. -/
structure SerErr where
  name : String
  path : String
  message : String
  description : String
deriving Repr, DecidableEq, Inhabited

/-- An abrupt outcome of serialization: a `TranslettaSerializationError`
(caught by the manager and turned into a diagnostic), any other thrown JS
error (rethrown by the manager), or exhaustion of the recursion budget of
the embedding (an artifact of the fuel encoding; `serializeGo_fuel_stable`
shows any budget of at least 2 gives the budget-independent result). -/
inductive RErr where
  | ser (e : SerErr)
  | js (msg : String)
  | fuel
deriving Repr, DecidableEq, Inhabited

/-- The in-memory unit store: `manager.cache`, locale → unit name → unit
(both levels insertion-ordered `Collection`s, i.e. JS `Map`s). -/
def Store := List (String × List (String × Translation))

/-- `manager.cache.get(locale)`. -/
def storeLookup (store : Store) (locale : String) : Option (List (String × Translation)) :=
  assocLookup store locale

/-- `store.get(name) ?? null` on a per-locale collection. -/
def findTranslation (coll : List (String × Translation)) (name : String) : Option Translation :=
  assocLookup coll name

/-- Composite neighbor lookup: locale collection then unit name, `none`
when either level misses. -/
def neighborLookup (store : Store) (locale name : String) : Option Translation :=
  (storeLookup store locale).bind (fun coll => findTranslation coll name)

/-- JS property access `entry?.[path]` on a TOML value: table field lookup;
canonical numeric index into an array; other accesses give `undefined`.
(String character indexing and `length` are not modelled; no claim input
accesses a property of a string.) -/
def propLookup : TomlValue → String → Option TomlValue
  | .table es, k => assocLookup es k
  | .arr xs, k =>
    (match charsToNat? k.data with
     | some i => if toString i = k then xs.get? i else none
     | none => none)
  | .str _, _ => none

/-- The `paths.forEach` loop of `Translation.get`: walk the remaining
segments, throwing `Path <segment> not found` as soon as a step yields
`undefined`.  `t` is the unit the error is attributed to. -/
def getPathLoop (t : Translation) : Option TomlValue → List String → Except RErr (Option TomlValue)
  | entry, [] => .ok entry
  | entry, p :: ps =>
    match entry.bind (fun e => propLookup e p) with
    | none => .error (.ser ⟨t.name, t.path,
        "Path " ++ p ++ " not found",
        "The path " ++ p ++ " of " ++ t.name ++ " is not found"⟩)
    | some v => getPathLoop t (some v) ps

/-- `Translation.get`: dotted keys walk the tree segment by segment and
throw on a missing segment; undotted keys are a direct table lookup that
may return `undefined` (`none`). -/
def Translation.get (t : Translation) (key : String) : Except RErr (Option TomlValue) :=
  if key.data.contains '.' then
    let pn := parseNeighborName key
    getPathLoop t (assocLookup t.data pn.1) pn.2
  else .ok (assocLookup t.data key)

/-- `Translation.getNeighbor`: rejects a self-reference by name, then looks
the parsed head name up in the same-locale store (`null` on a miss). -/
def Translation.getNeighbor (store : Store) (t : Translation) (name : String) :
    Except RErr (Option Translation) :=
  let parsedName := (parseNeighborName name).1
  if parsedName = t.name then
    .error (.ser ⟨t.name, t.path,
      "Reference " ++ name ++ " is self-referencing",
      "The reference " ++ name ++ " of " ++ t.name ++ " is referencing itself"⟩)
  else .ok (neighborLookup store t.locale parsedName)

/-- `Translation.getWorkspaceTranslation`: the source is a stub that
returns `null` on every path (workspace scanning is unimplemented). -/
def Translation.getWorkspaceTranslation (_t : Translation)
    (_projectName _translationName : String) : Option Translation :=
  none

/-- The `references` value destructured out of `this.data`. -/
def referencesValue (t : Translation) : Option TomlValue :=
  assocLookup t.data "references"

/-- The rest of the destructuring `const \x7b references, ...data \x7d`:
the unit's data without its top-level `references` entry. -/
def contentData (t : Translation) : List (String × TomlValue) :=
  t.data.filter (fun kv => kv.1 ≠ "references")

/-- `Object.entries(referencesMap ?? \x7b\x7d)`: entries of the references
table; index-keyed entries for an array or a (degenerate) string value;
empty when the key is absent. -/
def referencesEntries (t : Translation) : List (String × TomlValue) :=
  match referencesValue t with
  | some (.table es) => es
  | some (.arr xs) => xs.enum.map (fun iv => (toString iv.1, iv.2))
  | some (.str s) => s.data.enum.map (fun ic => (toString ic.1, .str (String.mk [ic.2])))
  | none => []

/-- A resolved entry of the `resolvedReferences` map: target unit plus the
key path split off the reference string. -/
structure ResolvedRef where
  translation : Translation
  keyPath : String
deriving Repr, Inhabited

/-- One iteration of the reference-validation loop in
`serializeWithContext`: classify the target string as workspace (`@@`) or
neighbor (`@`) scoped, split off the key path, eagerly look the target up,
and throw for a malformed or unresolvable reference.  A non-string
reference value would make `reference.startsWith` throw a `TypeError`. -/
def resolveRefStep (store : Store) (t : Translation) (alias_ : String) (reference : TomlValue) :
    Except RErr ResolvedRef :=
  match reference with
  | .str r =>
    if sStartsWith r "@@" then
      let rest := String.mk (r.data.drop 2)
      let pk := splitFirstDot rest
      match t.getWorkspaceTranslation pk.1 alias_ with
      | some tr => .ok ⟨tr, pk.2⟩
      | none => .error (.ser ⟨t.name, t.path,
          "Reference " ++ r ++ " not found",
          "The reference " ++ r ++ " of " ++ t.name ++ " is not found"⟩)
    else if sStartsWith r "@" then
      let rest := String.mk (r.data.drop 1)
      let pk := splitFirstDot rest
      match t.getNeighbor store pk.1 with
      | .error e => .error e
      | .ok none => .error (.ser ⟨t.name, t.path,
          "Reference " ++ r ++ " not found",
          "The reference " ++ r ++ " of " ++ t.name ++ " is not found"⟩)
      | .ok (some tr) => .ok ⟨tr, pk.2⟩
    else .error (.ser ⟨t.name, t.path,
      "Invalid reference format: " ++ r,
      "Reference " ++ r ++ " must start with @ or @@"⟩)
  | _ => .error (.js "TypeError: reference.startsWith is not a function")

/-- The `for (const [alias, reference] of Object.entries(referencesMap))`
loop building `resolvedReferences`. -/
def resolveRefsAux (store : Store) (t : Translation)
    (acc : List (String × ResolvedRef)) :
    List (String × TomlValue) → Except RErr (List (String × ResolvedRef))
  | [] => .ok acc
  | (alias_, ref) :: rest =>
    match resolveRefStep store t alias_ ref with
    | .error e => .error e
    | .ok rr => resolveRefsAux store t (setAssoc acc alias_ rr) rest

/-- `SerializedTranslation`: metadata (name, locale, path, flattened for
convenience), the `content` record (only string values are ever assigned
into it by the source's traversal callback) and the collected `parameters`. -/
structure SerializedTranslation where
  name : String
  locale : String
  path : String
  content : List (String × String)
  parameters : List String
deriving Repr, DecidableEq, Inhabited

/-- The two mutable accumulators of `serializeWithContext`'s traversal
callback: the `content` record and the `parameters` array. -/
structure TravState where
  content : List (String × String)
  parameters : List String
deriving Repr, DecidableEq, Inhabited

/-- `parameters.push` guarded by `parameters.includes`. -/
def addParam (ps : List String) (p : String) : List String :=
  if ps.contains p then ps else ps ++ [p]

/-- The temporary translation the source builds to resolve embeddings
inside a referenced value:
`new Translation(manager, \x7b content: "temp = '<value>'", locale, name:
  "<target>.temp", path \x7d)`.
The TOML round-trip is modelled as the parsed table it produces.  (A value
containing a single quote or a newline would make `toml.parse` throw; no
claim input contains one.)  Note the temporary unit carries only the key
`temp` — neither the target's `references` table nor its other keys. -/
def mkTemp (target : Translation) (value : String) : Translation :=
  { name := target.name ++ ".temp"
    locale := target.locale
    path := target.path
    data := [("temp", .str value)] }

/-- The type of the recursive serialization entry point threaded through
the helpers (the `tempTranslation.serializeWithContext(newVisited)` call). -/
abbrev Recur := Store → Translation → List String → Except RErr SerializedTranslation

/-- Resolution of one embedding path inside a string value (the body of the
`for (const match of embeddingMatches)` loop, up to the substitution):
split `alias.keyPath` at the first dot; if the alias was declared in
`[references]` resolve through the target unit (recursing into a temporary
translation when the fetched value is a string containing `\x7b@`),
otherwise fall back to a local key lookup on the current unit; throw when
the result is `undefined`. -/
def resolveEmbedding (recur : Recur) (store : Store) (t : Translation)
    (rrefs : List (String × ResolvedRef)) (newVisited : List String)
    (fullPath : String) : Except RErr TomlValue :=
  let ak := splitFirstDot fullPath
  match assocLookup rrefs ak.1 with
  | some rr =>
    let fullKeyPath := if rr.keyPath ≠ "" then rr.keyPath ++ "." ++ ak.2 else ak.2
    (match rr.translation.get fullKeyPath with
     | .error e => .error e
     | .ok rv =>
       let afterTemp : Except RErr (Option TomlValue) :=
         match rv with
         | some (.str s) =>
           if sIncludes s "\x7b@" then
             match recur store (mkTemp rr.translation s) newVisited with
             | .error e => .error e
             | .ok ser => .ok ((assocLookup ser.content "temp").map TomlValue.str)
           else .ok (some (.str s))
         | other => .ok other
       match afterTemp with
       | .error e => .error e
       | .ok none => .error (.ser ⟨t.name, t.path,
           "Key " ++ fullKeyPath ++ " not found in " ++ ak.1,
           "The key " ++ fullKeyPath ++ " is not found in the referenced translation " ++ ak.1⟩)
       | .ok (some v) => .ok v)
  | none =>
    (match t.get fullPath with
     | .error e => .error e
     | .ok none => .error (.ser ⟨t.name, t.path,
         "Key " ++ fullPath ++ " not found locally or in references",
         "The key " ++ fullPath ++ " is not found in the current translation or declared in the [references] block"⟩)
     | .ok (some v) => .ok v)

/-- The substitution loop over the embedding matches of one string value:
each match is resolved independently against the same alias table and
spliced into the evolving value with `value.replace(match, resolved)`. -/
def substEmbeddings (recur : Recur) (store : Store) (t : Translation)
    (rrefs : List (String × ResolvedRef)) (newVisited : List String) :
    List (String × String) → String → Except RErr String
  | [], v => .ok v
  | (m, g) :: rest, v =>
    match resolveEmbedding recur store t rrefs newVisited g with
    | .error e => .error e
    | .ok rv => substEmbeddings recur store t rrefs newVisited rest
        (jsReplaceFirst v m (jsToString rv))

/-- The traversal callback of `serializeWithContext`: skip non-strings;
extract parameters, resolve and substitute embeddings, then assign the
final value into `content` under the entry's own key.  (The
`warnOnEmptyTranslations` console warning is output-only and not
modelled.) -/
def serializeCallback (recur : Recur) (store : Store) (t : Translation)
    (rrefs : List (String × ResolvedRef)) (newVisited : List String)
    (key : String) (v : TomlValue) (st : TravState) : Except RErr TravState :=
  match v with
  | .str s =>
    let params := (paramScan s.data).foldl addParam st.parameters
    (match substEmbeddings recur store t rrefs newVisited (embedScan s.data) s with
     | .error e => .error e
     | .ok value => .ok ⟨setAssoc st.content key value, params⟩)
  | _ => .ok st

mutual

/-- `Translation.traverse` over a list of object entries: call the
callback on each entry, then recurse into the entry's value when it is an
object. -/
def traverseList (cb : String → TomlValue → TravState → Except RErr TravState) :
    List (String × TomlValue) → TravState → Except RErr TravState
  | [], st => .ok st
  | (k, v) :: rest, st =>
    match cb k v st with
    | .error e => .error e
    | .ok st1 =>
      match traverseInto cb v st1 with
      | .error e => .error e
      | .ok st2 => traverseList cb rest st2

/-- The `typeof value === 'object'` recursion of `traverse`: descend into
tables and arrays (via their `Object.entries`), not into strings. -/
def traverseInto (cb : String → TomlValue → TravState → Except RErr TravState) :
    TomlValue → TravState → Except RErr TravState
  | .str _, st => .ok st
  | .table es, st => traverseList cb es st
  | .arr xs, st => traverseArr cb 0 xs st

/-- Traversal of an array's `Object.entries`: index-string keys. -/
def traverseArr (cb : String → TomlValue → TravState → Except RErr TravState) :
    Nat → List TomlValue → TravState → Except RErr TravState
  | _, [], st => .ok st
  | i, v :: rest, st =>
    match cb (toString i) v st with
    | .error e => .error e
    | .ok st1 =>
      match traverseInto cb v st1 with
      | .error e => .error e
      | .ok st2 => traverseArr cb (i + 1) rest st2

end

/-- The body of `Translation.serializeWithContext`, parameterised by the
recursive entry point used for temporary translations: circular-reference
check on `locale/name` against the visited set, eager resolution of the
`[references]` table, then the substituting traversal of the remaining
data. -/
def serializeCore (recur : Recur) (store : Store) (t : Translation)
    (visited : List String) : Except RErr SerializedTranslation :=
  let currentPath := t.locale ++ "/" ++ t.name
  if visited.contains currentPath then
    let cycle := String.intercalate " → " (visited ++ [currentPath])
    .error (.ser ⟨t.name, t.path,
      "Circular reference detected: " ++ cycle,
      "Circular reference detected in translation chain: " ++ cycle⟩)
  else
    let newVisited := visited ++ [currentPath]
    match resolveRefsAux store t [] (referencesEntries t) with
    | .error e => .error e
    | .ok rrefs =>
      match traverseList (serializeCallback recur store t rrefs newVisited)
          (contentData t) ⟨[], []⟩ with
      | .error e => .error e
      | .ok st => .ok ⟨t.name, t.locale, t.path, st.content, st.parameters⟩

/-- `serializeWithContext` with an explicit recursion budget: budget `n+1`
serves recursive calls (made only for temporary translations) with budget
`n`.  `serializeGo_fuel_stable` proves every budget of at least 2 computes
the same result, because temporary translations carry no `[references]`
table and therefore never recurse further. -/
def serializeGo : Nat → Recur
  | 0, _, _, _ => .error .fuel
  | n + 1, store, t, visited => serializeCore (serializeGo n) store t visited

/-- `Translation.serialize`: `serializeWithContext(new Set())`. -/
def Translation.serialize (store : Store) (t : Translation) :
    Except RErr SerializedTranslation :=
  serializeGo 2 store t []

/-!  The translation manager (core/managers/translation-manager.ts). -/

/-- The manager's mutable state: the scanned unit store (`cache`) and the
cached result of the last compilation (`compilationResult`, one
insertion-ordered entry per locale). -/
structure ManagerState where
  cache : Store
  compilationResult : List (String × List SerializedTranslation)

/-- `CompilationResult` returned by `TranslationManager.compile`. -/
structure CompilationResultM where
  result : List (String × List SerializedTranslation)
  diagnostics : List SerErr

/-- The `translations.map(...).filter(v => v !== null)` body of
`TranslationManager.compile` for one locale: serialize each unit, turning
a `TranslettaSerializationError` into a diagnostic and omitting the unit
from the output; rethrow any other error (which aborts the whole
compilation). -/
def serializeLocale (store : Store) :
    List (String × Translation) → Except String (List SerializedTranslation × List SerErr)
  | [] => .ok ([], [])
  | (_, tr) :: rest =>
    match Translation.serialize store tr with
    | .ok s =>
      (match serializeLocale store rest with
       | .ok (os, ds) => .ok (s :: os, ds)
       | .error m => .error m)
    | .error (.ser e) =>
      (match serializeLocale store rest with
       | .ok (os, ds) => .ok (os, e :: ds)
       | .error m => .error m)
    | .error (.js m) => .error m
    | .error .fuel => .error "fuel exhausted"

/-- The `this.cache.forEach(...)` loop repopulating `compilationResult`:
one entry per locale of the full store, diagnostics accumulated across
locales in traversal order. -/
def deriveCompiledAux (store : Store) :
    Store → Except String (List (String × List SerializedTranslation) × List SerErr)
  | [] => .ok ([], [])
  | (locale, trs) :: rest =>
    match serializeLocale store trs with
    | .error m => .error m
    | .ok (os, ds) =>
      (match deriveCompiledAux store rest with
       | .error m => .error m
       | .ok (res, ds2) => .ok ((locale, os) :: res, ds ++ ds2))

/-- Fresh derivation of the compiled output from the current store. -/
def deriveCompiled (store : Store) :
    Except String (List (String × List SerializedTranslation) × List SerErr) :=
  deriveCompiledAux store store

/-- `TranslationManager.compile(\x7bforce, diagnostics\x7d)`: without
`force`, a non-empty cached `compilationResult` is returned as-is (with an
empty diagnostics list); otherwise the cached result is cleared and
repopulated from the store.  The `diagnostics` option is destructured by
the source but never read, so it does not influence the result.  A
rethrown non-diagnostic error is modelled as `Except.error` (the state
after such a crash is not observed by any claim). -/
def managerCompile (force _diagnostics : Bool) (st : ManagerState) :
    Except String (CompilationResultM × ManagerState) :=
  if !force && decide (0 < st.compilationResult.length) then
    .ok (⟨st.compilationResult, []⟩, st)
  else
    match deriveCompiled st.cache with
    | .error m => .error m
    | .ok (res, ds) => .ok (⟨res, ds⟩, { st with compilationResult := res })

/-!  The orchestrator (transletta.ts): schema validation and `compile`. -/

/-- The slice of `TranslettaConfig` the compiler core reads. -/
structure Config where
  primaryLocale : String
  projects : Option (List (String × String))
  warnOnEmptyTranslations : Bool

mutual

/-- The raw pre-order key-path sequence of `Transletta.extractKeys`:
recurse through tables (non-array objects), treat every other value — a
string, or a whole array — as one leaf path. -/
def extractKeysRaw (prefix_ : String) : List (String × TomlValue) → List String
  | [] => []
  | (k, v) :: rest =>
    let fullKey := if prefix_ = "" then k else prefix_ ++ "." ++ k
    extractKeysVal fullKey v ++ extractKeysRaw prefix_ rest

/-- Key paths contributed by one value under its full key. -/
def extractKeysVal (fullKey : String) : TomlValue → List String
  | .table es => extractKeysRaw fullKey es
  | .str _ => [fullKey]
  | .arr _ => [fullKey]

end

/-- First-occurrence deduplication, mirroring accumulation into a JS
`Set` (insertion-ordered, membership-deduplicated). -/
def dedupKeys (seen : List String) : List String → List String
  | [] => []
  | k :: rest => if seen.contains k then dedupKeys seen rest
                 else k :: dedupKeys (k :: seen) rest

/-- `Transletta.extractKeys(data)`: the set of dotted key paths of a
unit's data, as the insertion-ordered deduplicated pre-order sequence
(the source's nested `Set` merging produces exactly this order and
membership). -/
def extractKeys (data : List (String × TomlValue)) : List String :=
  dedupKeys [] (extractKeysRaw "" data)

/-- JS `Set.prototype.has` / key membership. -/
def jsHas (l : List String) (k : String) : Bool := l.any (fun x => x = k)

/-- The per-locale body of `validateSchema`'s locale loop: missing-file
errors, extra-file errors, then per-file missing-key and extra-key errors,
in the source's push order. -/
def localeSchemaErrors (primaryLocale : String) (primaryFiles : List String)
    (primaryKeys : List (String × List String)) (locale : String)
    (translations : List (String × Translation)) : List String :=
  let localeFiles := translations.map (fun kv => kv.1)
  let missingFiles := (primaryFiles.filter (fun f => !jsHas localeFiles f)).map
    (fun f => "❌ Missing file: " ++ locale ++ "/" ++ f ++ ".toml (exists in " ++ primaryLocale ++ ")")
  let extraFiles := (localeFiles.filter (fun f => !jsHas primaryFiles f)).map
    (fun f => "❌ Extra file: " ++ locale ++ "/" ++ f ++ ".toml (not in " ++ primaryLocale ++ ")")
  let keyErrors := translations.flatMap (fun ft =>
    match assocLookup primaryKeys ft.1 with
    | none => []
    | some pk =>
      let lk := extractKeys ft.2.data
      (pk.filter (fun k => !jsHas lk k)).map
        (fun k => "❌ Missing key: " ++ locale ++ "/" ++ ft.1 ++ ".toml → " ++ k) ++
      (lk.filter (fun k => !jsHas pk k)).map
        (fun k => "❌ Extra key: " ++ locale ++ "/" ++ ft.1 ++ ".toml → " ++ k))
  missingFiles ++ extraFiles ++ keyErrors

/-- All schema discrepancies collected by `validateSchema` across the
non-primary locales, given the primary locale's collection. -/
def schemaErrorsList (cache : Store) (primaryLocale : String)
    (primaryTranslations : List (String × Translation)) : List String :=
  let primaryFiles := primaryTranslations.map (fun kv => kv.1)
  let primaryKeys := primaryTranslations.map (fun kv => (kv.1, extractKeys kv.2.data))
  (cache.filter (fun lc => lc.1 ≠ primaryLocale)).flatMap
    (fun lc => localeSchemaErrors primaryLocale primaryFiles primaryKeys lc.1 lc.2)

/-- `Transletta.validateSchema`: throws when the primary locale is absent,
otherwise throws one aggregate error when any discrepancy was collected. -/
def validateSchema (cache : Store) (primaryLocale : String) : Except String Unit :=
  match storeLookup cache primaryLocale with
  | none => .error ("🚨 Primary locale '" ++ primaryLocale ++ "' not found")
  | some primaryTranslations =>
    let errs := schemaErrorsList cache primaryLocale primaryTranslations
    if errs.isEmpty then .ok ()
    else .error ("🚨 Schema validation failed! All locales must match " ++ primaryLocale ++
      ":\n\n" ++ String.intercalate "\n" errs)

/-- The aggregate error message `Transletta.compile` raises when diagnostics
were collected.  (The per-diagnostic relative-path rewrite of the current
working directory is environment-dependent and kept as the raw path.) -/
def aggregateMsg (ds : List SerErr) : String :=
  "🚨 Compilation failed with " ++ toString ds.length ++
  (if ds.length > 1 then " errors" else " error") ++ ":\n\n" ++
  String.intercalate "\n\n" (ds.enum.map (fun ie =>
    "❌ Error " ++ toString (ie.1 + 1) ++ ": " ++ ie.2.name ++
    "\n   📁 File: " ++ ie.2.path ++
    "\n   💬 " ++ ie.2.message ++
    "\n   📝 " ++ ie.2.description))

/-- `Transletta.compile`: refuse workspace mode, force a scan (modelled by
the freshly scanned store `scanned` replacing the cache), validate the
schema, then force a manager compilation; when diagnostics were collected,
clear the compiled result (`result.result.clear()` empties the manager's
cached collection) and raise the aggregate error.  Returns the final
manager state together with the outcome. -/
def translettaCompile (cfg : Config) (scanned : Store) (st : ManagerState) :
    ManagerState × Except String (List (String × List SerializedTranslation)) :=
  if cfg.projects.isSome then
    (st, .error "🚨 Workspace mode is currently not supported")
  else
    let st1 : ManagerState := { st with cache := scanned }
    match validateSchema st1.cache cfg.primaryLocale with
    | .error m => (st1, .error m)
    | .ok _ =>
      match managerCompile true true st1 with
      | .error m => (st1, .error m)
      | .ok (res, st2) =>
        if res.diagnostics.length > 0 then
          ({ st2 with compilationResult := [] }, .error (aggregateMsg res.diagnostics))
        else (st2, .ok res.result)

/-!  Concrete fixtures used by the claim theorems. -/

/-- Reads a flat string-to-string `content` record back as a TOML table,
for comparing compiled content against parsed source data. -/
def contentAsToml (c : List (String × String)) : TomlValue :=
  .table (c.map (fun kv => (kv.1, TomlValue.str kv.2)))

/-- A flat alias table as a TOML `references` value. -/
def refsTable (R : List (String × String)) : TomlValue :=
  .table (R.map (fun kv => (kv.1, TomlValue.str kv.2)))

/-- The target-unit name parsed out of a neighbor reference string
`(at)name[.path]`: the text between the `@` and the first dot (the
`translationName` local of the reference-validation loop). -/
def refTargetName (r : String) : String :=
  (splitFirstDot (String.mk (r.data.drop 1))).1

/-- C1: a unit with nested data, no `references`, no embeddings. -/
def c1Unit : Translation :=
  ⟨"home", "en", "home.toml", [("hero", .table [("title", .str "X")])]⟩

def c1Store : Store := [("en", [("home", c1Unit)])]

/-- C2: a neighbor providing the referenced value. -/
def c2Other : Translation := ⟨"other", "en", "other.toml", [("title", .str "REF")]⟩

/-- C2: a unit declaring alias `hero` in `[references]` while also having a
local key path `hero.title`; the declared reference must win. -/
def c2Home : Translation :=
  ⟨"home", "en", "home.toml",
   [("references", .table [("hero", .str "@other")]),
    ("hero", .table [("title", .str "LOC")]),
    ("msg", .str "\x7b@hero.title\x7d")]⟩

def c2Store : Store := [("en", [("other", c2Other), ("home", c2Home)])]

/-- C2: the spec's local-fallback example — no `references` entry for
`hero`, a local `hero.title = "X"`. -/
def c2Local : Translation :=
  ⟨"home", "en", "home.toml",
   [("hero", .table [("title", .str "X")]),
    ("greeting", .str "\x7b@hero.title\x7d")]⟩

def c2LocalStore : Store := [("en", [("home", c2Local)])]

/-- C3: a declared alias whose target unit does not exist, never used by
any embedding in the unit's values. -/
def c3Unit : Translation :=
  ⟨"home", "en", "home.toml",
   [("references", .table [("x", .str "@missing")]), ("title", .str "Hello")]⟩

def c3Store : Store := [("en", [("home", c3Unit)])]

/-- C4: two units whose references and embeddings form a cycle. -/
def c4UnitA : Translation :=
  ⟨"a", "en", "a.toml",
   [("references", .table [("other", .str "@b")]), ("greet", .str "\x7b@other.x\x7d")]⟩

def c4UnitB : Translation :=
  ⟨"b", "en", "b.toml",
   [("references", .table [("other", .str "@a")]), ("x", .str "\x7b@other.greet\x7d")]⟩

def c4Store : Store := [("en", [("a", c4UnitA), ("b", c4UnitB)])]

/-- C5: a three-unit reference chain a → b → c through string values. -/
def c5UnitA : Translation :=
  ⟨"a", "en", "a.toml",
   [("references", .table [("b", .str "@b")]), ("val", .str "\x7b@b.x\x7d")]⟩

def c5UnitB : Translation :=
  ⟨"b", "en", "b.toml",
   [("references", .table [("c", .str "@c")]), ("x", .str "pre \x7b@c.y\x7d post")]⟩

def c5UnitC : Translation := ⟨"c", "en", "c.toml", [("y", .str "Z")]⟩

def c5Store : Store := [("en", [("a", c5UnitA), ("b", c5UnitB), ("c", c5UnitC)])]

/-- C6 witness fixture: a unit whose references table points at itself,
with the alias unused by any value. -/
def c6Unit : Translation :=
  ⟨"home", "en", "home.toml",
   [("references", .table [("x", .str "@home")]), ("title", .str "Hi")]⟩

def c6Store : Store := [("en", [("home", c6Unit)])]

/-- C7: primary locale `en` with units `home` and `common`; secondary
locale `fr` with only `home`. -/
def c7Primary (dHome1 dCommon : List (String × TomlValue)) : List (String × Translation) :=
  [("home", ⟨"home", "en", "en/home.toml", dHome1⟩),
   ("common", ⟨"common", "en", "en/common.toml", dCommon⟩)]

def c7Cache (dHome1 dCommon dHome2 : List (String × TomlValue)) : Store :=
  [("en", c7Primary dHome1 dCommon),
   ("fr", [("home", ⟨"home", "fr", "fr/home.toml", dHome2⟩)])]

/-- The non-workspace configuration used by the orchestrator claims. -/
def cfgEn : Config := ⟨"en", none, true⟩

/-- C7 witness data. -/
def c7DHome : List (String × TomlValue) := [("title", .str "Hello")]

def c7DCommon : List (String × TomlValue) := [("login", .str "Login")]

/-- C8: the compiled result cached by a previous successful run. -/
def c8PrevResult : List (String × List SerializedTranslation) :=
  [("en", [⟨"home", "en", "en/home.toml", [("title", "X")], []⟩])]

/-- C8: manager state holding the previous run's cached result. -/
def c8State : ManagerState := ⟨[], c8PrevResult⟩

/-- C9 witness fixture: a manager state with a populated compilation
cache. -/
def c9State : ManagerState :=
  ⟨[("en", [("home", c1Unit)])], [("en", [⟨"home", "en", "home.toml", [("title", "X")], []⟩])]⟩

/-- C10: a `home` unit whose data is a `references` table followed by
shared content. -/
def c10Unit (locale : String) (R : List (String × String)) (C : List (String × TomlValue)) :
    Translation :=
  ⟨"home", locale, locale ++ "/home.toml", ("references", refsTable R) :: C⟩

def c10Cache (R1 R2 : List (String × String)) (C : List (String × TomlValue)) : Store :=
  [("en", [("home", c10Unit "en" R1 C)]), ("fr", [("home", c10Unit "fr" R2 C)])]

/-!  Helper lemmas: the recursion of `serializeWithContext` is invoked only
on temporary translations, which carry no `[references]` table and hence
never recurse further; consequently any recursion budget of at least 2
computes the same result. -/

/-- A temporary translation has no `references` entries. -/
theorem referencesEntries_mkTemp (target : Translation) (s : String) :
    referencesEntries (mkTemp target s) = [] := by
  simp [referencesEntries, referencesValue, mkTemp, assocLookup]

/-- `resolveEmbedding` calls the recursive entry point only on temporary
translations, so two entry points agreeing on those give equal results. -/
theorem resolveEmbedding_congr (r1 r2 : Recur) (store : Store) (t : Translation)
    (rrefs : List (String × ResolvedRef)) (nv : List String) (g : String)
    (h : ∀ target s v, r1 store (mkTemp target s) v = r2 store (mkTemp target s) v) :
    resolveEmbedding r1 store t rrefs nv g = resolveEmbedding r2 store t rrefs nv g := by
  simp only [resolveEmbedding]
  split
  · rename_i rr _
    split
    · rfl
    · rename_i rv _
      cases rv with
      | none => rfl
      | some v =>
        cases v with
        | table es => rfl
        | arr xs => rfl
        | str s =>
          cases hc : sIncludes s "\x7b@" with
          | false => simp [hc]
          | true => simp [hc, h rr.translation s nv]
  · rfl

/-- Congruence of the substitution loop in the recursive entry point. -/
theorem substEmbeddings_congr (r1 r2 : Recur) (store : Store) (t : Translation)
    (rrefs : List (String × ResolvedRef)) (nv : List String)
    (h : ∀ target s v, r1 store (mkTemp target s) v = r2 store (mkTemp target s) v) :
    ∀ (ms : List (String × String)) (v : String),
      substEmbeddings r1 store t rrefs nv ms v = substEmbeddings r2 store t rrefs nv ms v
  | [], _ => rfl
  | (m, g) :: rest, v => by
    simp only [substEmbeddings, resolveEmbedding_congr r1 r2 store t rrefs nv g h]
    cases resolveEmbedding r2 store t rrefs nv g with
    | error e => rfl
    | ok rv => exact substEmbeddings_congr r1 r2 store t rrefs nv h rest _

/-- Congruence of the traversal callback in the recursive entry point. -/
theorem serializeCallback_congr (r1 r2 : Recur) (store : Store) (t : Translation)
    (rrefs : List (String × ResolvedRef)) (nv : List String)
    (h : ∀ target s v, r1 store (mkTemp target s) v = r2 store (mkTemp target s) v)
    (k : String) (v : TomlValue) (st : TravState) :
    serializeCallback r1 store t rrefs nv k v st = serializeCallback r2 store t rrefs nv k v st := by
  cases v with
  | str s =>
    simp only [serializeCallback,
      substEmbeddings_congr r1 r2 store t rrefs nv h (embedScan s.data) s]
  | table es => rfl
  | arr xs => rfl

/-- Congruence of one serialization layer in the recursive entry point. -/
theorem serializeCore_congr (r1 r2 : Recur) (store : Store) (t : Translation)
    (visited : List String)
    (h : ∀ target s v, r1 store (mkTemp target s) v = r2 store (mkTemp target s) v) :
    serializeCore r1 store t visited = serializeCore r2 store t visited := by
  simp only [serializeCore]
  split
  · rfl
  · split
    · rfl
    · rename_i rrefs _
      have hcb : serializeCallback r1 store t rrefs (visited ++ [t.locale ++ "/" ++ t.name])
          = serializeCallback r2 store t rrefs (visited ++ [t.locale ++ "/" ++ t.name]) :=
        funext fun k => funext fun v => funext fun st =>
          serializeCallback_congr r1 r2 store t rrefs _ h k v st
      rw [hcb]

/-- With an empty alias table the embedding resolver always takes the
local branch and never invokes the recursive entry point. -/
theorem resolveEmbedding_nilRefs (r1 r2 : Recur) (store : Store) (t : Translation)
    (nv : List String) (g : String) :
    resolveEmbedding r1 store t [] nv g = resolveEmbedding r2 store t [] nv g := rfl

/-- With an empty alias table the substitution loop is independent of the
recursive entry point. -/
theorem substEmbeddings_nilRefs (r1 r2 : Recur) (store : Store) (t : Translation)
    (nv : List String) :
    ∀ (ms : List (String × String)) (v : String),
      substEmbeddings r1 store t [] nv ms v = substEmbeddings r2 store t [] nv ms v
  | [], _ => rfl
  | (m, g) :: rest, v => by
    simp only [substEmbeddings, resolveEmbedding_nilRefs r1 r2 store t nv g]
    cases resolveEmbedding r2 store t [] nv g with
    | error e => rfl
    | ok rv => exact substEmbeddings_nilRefs r1 r2 store t nv rest _

/-- With an empty alias table the traversal callback is independent of the
recursive entry point. -/
theorem serializeCallback_nilRefs (r1 r2 : Recur) (store : Store) (t : Translation)
    (nv : List String) (k : String) (v : TomlValue) (st : TravState) :
    serializeCallback r1 store t [] nv k v st = serializeCallback r2 store t [] nv k v st := by
  cases v with
  | str s =>
    simp only [serializeCallback,
      substEmbeddings_nilRefs r1 r2 store t nv (embedScan s.data) s]
  | table es => rfl
  | arr xs => rfl

/-- A unit with no `references` entries serializes independently of the
recursive entry point. -/
theorem serializeCore_nilRefs (r1 r2 : Recur) (store : Store) (t : Translation)
    (visited : List String) (he : referencesEntries t = []) :
    serializeCore r1 store t visited = serializeCore r2 store t visited := by
  simp only [serializeCore, he]
  split
  · rfl
  · simp only [resolveRefsAux]
    have hcb : serializeCallback r1 store t [] (visited ++ [t.locale ++ "/" ++ t.name])
        = serializeCallback r2 store t [] (visited ++ [t.locale ++ "/" ++ t.name]) :=
      funext fun k => funext fun v => funext fun st =>
        serializeCallback_nilRefs r1 r2 store t _ k v st
    rw [hcb]

/-- A unit with no `references` entries never invokes the recursive entry
point, so its serialization is budget-independent beyond the first layer. -/
theorem serializeGo_noRefs (n : Nat) (store : Store) (t : Translation)
    (visited : List String) (he : referencesEntries t = []) :
    serializeGo (n + 1) store t visited = serializeGo 1 store t visited :=
  serializeCore_nilRefs (serializeGo n) (serializeGo 0) store t visited he

/-- Budget stability: every recursion budget of at least 2 computes the
same serialization result.  This is the termination statement for the
source's recursion: its depth never exceeds 2, because recursive calls are
made only for temporary translations, which never recurse further. -/
theorem serializeGo_fuel_stable (n : Nat) (hn : 2 ≤ n) (store : Store)
    (t : Translation) (visited : List String) :
    serializeGo n store t visited = serializeGo 2 store t visited := by
  obtain ⟨m, rfl⟩ : ∃ m, n = m + 2 := ⟨n - 2, by omega⟩
  show serializeCore (serializeGo (m + 1)) store t visited
      = serializeCore (serializeGo 1) store t visited
  exact serializeCore_congr _ _ store t visited
    (fun target s v => serializeGo_noRefs m store (mkTemp target s) v
      (referencesEntries_mkTemp target s))

/-- Claim C2: lookup order of embeddings.  First conjunct: in `c2Home` the
alias `hero` is declared in `[references]` (targeting unit `other` whose
`title` is `REF`) and the unit also has a local key path `hero.title =
"LOC"`; the embedding `(at)hero.title` resolves to `REF`, so the declared
reference takes precedence over the local key.  Second conjunct: in
`c2Local` there is no `references` entry for `hero` but a local key
`hero.title = "X"`, and the embedding resolves to `X` — the local-key
fallback of the claim. -/
theorem c2_lookup_order :
    Translation.serialize c2Store c2Home
      = .ok ⟨"home", "en", "home.toml", [("title", "LOC"), ("msg", "REF")], []⟩
  ∧ Translation.serialize c2LocalStore c2Local
      = .ok ⟨"home", "en", "home.toml", [("title", "X"), ("greeting", "X")], []⟩
  ∧ (∀ (recur : Recur) (store : Store) (rrefs : List (String × ResolvedRef))
       (nv : List String) (g : String) (rr : ResolvedRef)
       (nm lc1 lc2 pth : String) (d1 d2 : List (String × TomlValue)),
       assocLookup rrefs (splitFirstDot g).1 = some rr →
       resolveEmbedding recur store ⟨nm, lc1, pth, d1⟩ rrefs nv g
         = resolveEmbedding recur store ⟨nm, lc2, pth, d2⟩ rrefs nv g) := by
  refine ⟨by decide, by decide, ?_⟩
  intro recur store rrefs nv g rr nm lc1 lc2 pth d1 d2 hx
  simp only [resolveEmbedding, hx]

/-- Witness for the precedence conjunct of `c2_lookup_order`: with the
alias `hero` declared, the resolved value is the same whatever the local
data of the current unit is. -/
theorem c2_lookup_order_witness :
    assocLookup [("hero", ResolvedRef.mk c2Other "")] (splitFirstDot "hero.title").1
      = some (ResolvedRef.mk c2Other "")
  ∧ resolveEmbedding (serializeGo 1) c2Store
      ⟨"home", "en", "home.toml", [("hero", TomlValue.table [("title", TomlValue.str "LOC")])]⟩
      [("hero", ResolvedRef.mk c2Other "")] ["en/home"] "hero.title"
    = resolveEmbedding (serializeGo 1) c2Store
      ⟨"home", "fr", "home.toml", []⟩
      [("hero", ResolvedRef.mk c2Other "")] ["en/home"] "hero.title" :=
  ⟨rfl, (c2_lookup_order.2.2) (serializeGo 1) c2Store [("hero", ResolvedRef.mk c2Other "")]
    ["en/home"] "hero.title" (ResolvedRef.mk c2Other "") "home" "en" "fr" "home.toml"
    [("hero", TomlValue.table [("title", TomlValue.str "LOC")])] [] rfl⟩

/-- Claim C3, counterexample: `c3Unit` declares alias `x` bound to the
unresolvable reference `(at)missing`, and no value of the unit contains any
embedding at all (its only value is the plain string `Hello`), yet
serialization raises the `Reference (at)missing not found` diagnostic.
The claim asserts a declared-but-never-used unresolvable alias does not by
itself cause a diagnostic; the code raises it eagerly. -/
theorem c3_counterexample :
    Translation.serialize c3Store c3Unit
      = .error (.ser ⟨"home", "home.toml",
          "Reference @missing not found",
          "The reference @missing of home is not found"⟩) := by decide

/-- Claim C5: evaluation at the failing input.  `c5UnitA` references
`c5UnitB` whose value `x = "pre (at)c.y post"` itself references
`c5UnitC` through B's own declared alias `c`.  The claim says the inner
embedding is resolved in the context of the target unit (against B's
references and local keys), so `A.val` should compile to `pre Z post`.
Instead the inner embedding is resolved inside a synthetic `b.temp`
translation that carries neither B's `references` table nor B's keys, and
serialization of A fails with `Path y not found` attributed to `b.temp`.
The second conjunct shows the direct (one-hop) resolution of B itself
succeeds, isolating the loss of context to the nested step. -/
theorem c5_temp_context_loss :
    Translation.serialize c5Store c5UnitA
      = .error (.ser ⟨"b.temp", "b.toml",
          "Path y not found",
          "The path y of b.temp is not found"⟩)
  ∧ Translation.serialize c5Store c5UnitB
      = .ok ⟨"b", "en", "b.toml", [("x", "pre Z post")], []⟩ :=
  ⟨by decide, by decide⟩

/-- Claim C4: evaluation of the two-unit reference cycle for every
recursion budget of at least 2 (budget-independence is the termination
statement: resolution never recurses beyond depth 2).  Each implicated
unit raises one diagnostic, but it is a `Path ... not found` error
attributed to a synthetic `<target>.temp` translation — not a
circular-reference diagnostic containing the chain `en/a → en/b → en/a`
that the claim (and the unreachable cycle-check branch of the source)
describes. -/
theorem c4_cycle_behavior (n : Nat) (hn : 2 ≤ n) :
    serializeGo n c4Store c4UnitA []
      = .error (.ser ⟨"b.temp", "b.toml",
          "Path greet not found",
          "The path greet of b.temp is not found"⟩)
  ∧ serializeGo n c4Store c4UnitB []
      = .error (.ser ⟨"a.temp", "a.toml",
          "Path x not found",
          "The path x of a.temp is not found"⟩) := by
  constructor
  · rw [serializeGo_fuel_stable n hn]
    decide
  · rw [serializeGo_fuel_stable n hn]
    decide

/-- Witness for `c4_cycle_behavior` at the concrete budget 2. -/
theorem c4_cycle_behavior_witness :
    2 ≤ 2
  ∧ (serializeGo 2 c4Store c4UnitA []
      = .error (.ser ⟨"b.temp", "b.toml",
          "Path greet not found",
          "The path greet of b.temp is not found"⟩)
  ∧ serializeGo 2 c4Store c4UnitB []
      = .error (.ser ⟨"a.temp", "a.toml",
          "Path x not found",
          "The path x of a.temp is not found"⟩)) :=
  ⟨le_refl 2, c4_cycle_behavior 2 (le_refl 2)⟩

/-- Claim C1, counterexample: `c1Unit` is well formed, has no `references`
table and no embeddings in any string leaf, yet the compiled content is the
flat record `[("title", "X")]` rather than the nested parsed data
`[("hero", \x7b"title": "X"\x7d)]` — the traversal assigns every string
leaf under its innermost key, flattening the structure. -/
theorem c1_counterexample :
    Translation.serialize c1Store c1Unit
      = .ok ⟨"home", "en", "home.toml", [("title", "X")], []⟩
  ∧ contentAsToml [("title", "X")] ≠ TomlValue.table (contentData c1Unit) := by
  refine ⟨by decide, ?_⟩
  intro h
  simp only [contentAsToml, contentData, c1Unit, List.map, List.filter] at h
  simp at h

/-- Splitting the reference-validation loop at an append. -/
theorem resolveRefsAux_append (store : Store) (t : Translation) :
    ∀ (l1 l2 : List (String × TomlValue)) (acc : List (String × ResolvedRef)),
      resolveRefsAux store t acc (l1 ++ l2) =
        match resolveRefsAux store t acc l1 with
        | .ok acc2 => resolveRefsAux store t acc2 l2
        | .error e => .error e
  | [], _, _ => rfl
  | (a, r) :: rest, l2, acc => by
    simp only [List.cons_append, resolveRefsAux]
    cases resolveRefStep store t a r with
    | error e => rfl
    | ok rr => exact resolveRefsAux_append store t rest l2 (setAssoc acc a rr)

/-- Unfolding of a top-level `serialize` call: the empty visited set never
triggers the cycle check, so the call is reference validation followed by
the substituting traversal. -/
theorem serialize_eq_core (store : Store) (t : Translation) :
    Translation.serialize store t
      = match resolveRefsAux store t [] (referencesEntries t) with
        | .error e => .error e
        | .ok rrefs =>
          match traverseList
              (serializeCallback (serializeGo 1) store t rrefs [t.locale ++ "/" ++ t.name])
              (contentData t) ⟨[], []⟩ with
          | .error e => .error e
          | .ok st => .ok ⟨t.name, t.locale, t.path, st.content, st.parameters⟩ := rfl

/-- Claim C3, amended: an unresolvable alias declared in a unit's
`references` table raises its diagnostic eagerly, while the alias table is
validated before any value is traversed — regardless of whether any
embedding uses the alias.  The unit's data is arbitrary here: nothing
requires the alias (or any embedding at all) to occur in the values. -/
theorem c3_amended_eager_validation (store : Store) (t : Translation)
    (pre rest : List (String × TomlValue)) (acc : List (String × ResolvedRef))
    (a r : String)
    (he : referencesEntries t = pre ++ (a, .str r) :: rest)
    (hpre : resolveRefsAux store t [] pre = .ok acc)
    (h2 : sStartsWith r "@@" = false)
    (h1 : sStartsWith r "@" = true)
    (hself : (parseNeighborName (refTargetName r)).1 ≠ t.name)
    (hmiss : neighborLookup store t.locale (parseNeighborName (refTargetName r)).1 = none) :
    Translation.serialize store t = .error (.ser ⟨t.name, t.path,
      "Reference " ++ r ++ " not found",
      "The reference " ++ r ++ " of " ++ t.name ++ " is not found"⟩) := by
  rw [serialize_eq_core, he, resolveRefsAux_append store t pre _ [], hpre]
  simp only [resolveRefsAux, resolveRefStep, h2, h1, Bool.false_eq_true, if_false, if_true,
    Translation.getNeighbor, refTargetName] at *
  rw [if_neg hself, hmiss]

/-- Witness for `c3_amended_eager_validation` at the `c3Unit` fixture: the
alias `x` is bound to `(at)missing`, no value of the unit contains any
embedding, and serialization raises the eager diagnostic. -/
theorem c3_amended_eager_validation_witness :
    referencesEntries c3Unit = [] ++ ("x", TomlValue.str "@missing") :: []
  ∧ Translation.serialize c3Store c3Unit = .error (.ser ⟨"home", "home.toml",
      "Reference @missing not found",
      "The reference @missing of home is not found"⟩) :=
  ⟨rfl, c3_amended_eager_validation c3Store c3Unit [] [] [] "x" "@missing"
    rfl rfl (by decide) (by decide) (by decide) rfl⟩

/-- Claim C6: a `references` entry whose target name equals the declaring
unit's own name raises the self-reference diagnostic naming the unit, for
arbitrary unit data — in particular regardless of whether the alias is
used by any embedding in the unit's values.  The entry may sit anywhere in
the table provided the entries before it validate. -/
theorem c6_self_reference (store : Store) (t : Translation)
    (pre rest : List (String × TomlValue)) (acc : List (String × ResolvedRef))
    (a r : String)
    (he : referencesEntries t = pre ++ (a, .str r) :: rest)
    (hpre : resolveRefsAux store t [] pre = .ok acc)
    (h2 : sStartsWith r "@@" = false)
    (h1 : sStartsWith r "@" = true)
    (hname : (parseNeighborName (refTargetName r)).1 = t.name) :
    Translation.serialize store t = .error (.ser ⟨t.name, t.path,
      "Reference " ++ refTargetName r ++ " is self-referencing",
      "The reference " ++ refTargetName r ++ " of " ++ t.name ++ " is referencing itself"⟩) := by
  rw [serialize_eq_core, he, resolveRefsAux_append store t pre _ [], hpre]
  simp only [resolveRefsAux, resolveRefStep, h2, h1, Bool.false_eq_true, if_false, if_true,
    Translation.getNeighbor, refTargetName] at *
  rw [if_pos hname]

/-- Witness for `c6_self_reference` at the `c6Unit` fixture: the alias `x`
targets the unit's own name and is used by no embedding, yet serialization
raises the self-reference diagnostic. -/
theorem c6_self_reference_witness :
    referencesEntries c6Unit = [] ++ ("x", TomlValue.str "@home") :: []
  ∧ Translation.serialize c6Store c6Unit = .error (.ser ⟨"home", "home.toml",
      "Reference home is self-referencing",
      "The reference home of home is referencing itself"⟩) :=
  ⟨rfl, c6_self_reference c6Store c6Unit [] [] [] "x" "@home"
    rfl rfl (by decide) (by decide) (by decide)⟩

/-- An association lookup misses when no key matches. -/
theorem assocLookup_eq_none {α : Type} (l : List (String × α)) (k : String)
    (h : ∀ kv ∈ l, kv.1 ≠ k) : assocLookup l k = none := by
  induction l with
  | nil => rfl
  | cons kv rest ih =>
    simp only [assocLookup]
    rw [if_neg (h kv (List.mem_cons_self kv rest))]
    exact ih (fun kv2 hm => h kv2 (List.mem_cons_of_mem kv hm))

/-- Assigning a fresh key appends it. -/
theorem setAssoc_fresh {α : Type} (l : List (String × α)) (k : String) (v : α)
    (h : ∀ kv ∈ l, kv.1 ≠ k) : setAssoc l k v = l ++ [(k, v)] := by
  unfold setAssoc
  rw [if_neg]
  simp only [List.any_eq_true, decide_eq_true_eq, not_exists]
  intro kv hm
  exact h kv hm.1 hm.2

/-- Traversal of a flat all-string table with no embeddings and fresh,
pairwise-distinct keys appends each pair verbatim to the content record
(parameters are still collected). -/
theorem traverseList_flat (recur : Recur) (store : Store) (t : Translation)
    (nv : List String) :
    ∀ (flat c0 : List (String × String)) (p0 : List String),
      (∀ kv ∈ flat, embedScan kv.2.data = []) →
      (flat.map (fun kv => kv.1)).Nodup →
      (∀ k2 ∈ flat.map (fun kv => kv.1), ∀ kv ∈ c0, kv.1 ≠ k2) →
      ∃ ps, traverseList (serializeCallback recur store t [] nv)
          (flat.map (fun kv => (kv.1, TomlValue.str kv.2))) ⟨c0, p0⟩
        = .ok ⟨c0 ++ flat, ps⟩
  | [], c0, p0, _, _, _ => ⟨p0, by simp [traverseList]⟩
  | (k, s) :: rest, c0, p0, hne, hnd, hdisj => by
    have hks : embedScan s.data = [] := hne (k, s) (List.mem_cons_self _ _)
    have hnd2 : k ∉ rest.map (fun kv => kv.1) ∧ (rest.map (fun kv => kv.1)).Nodup := by
      rw [List.map_cons] at hnd
      exact List.nodup_cons.mp hnd
    have hstep : serializeCallback recur store t [] nv k (.str s) ⟨c0, p0⟩
        = .ok ⟨c0 ++ [(k, s)], (paramScan s.data).foldl addParam p0⟩ := by
      simp only [serializeCallback, hks, substEmbeddings]
      rw [setAssoc_fresh c0 k s (fun kv hm => hdisj k (by simp) kv hm)]
    have hdisj2 : ∀ k2 ∈ rest.map (fun kv => kv.1), ∀ kv ∈ c0 ++ [(k, s)], kv.1 ≠ k2 := by
      intro k2 hk2 kv hkv
      rcases List.mem_append.mp hkv with hc | hk
      · exact hdisj k2 (by simp [hk2]) kv hc
      · simp only [List.mem_singleton] at hk
        subst hk
        intro hkk
        simp only at hkk
        exact hnd2.1 (hkk ▸ hk2)
    obtain ⟨ps, hrec⟩ := traverseList_flat recur store t nv rest (c0 ++ [(k, s)])
      ((paramScan s.data).foldl addParam p0)
      (fun kv hm => hne kv (List.mem_cons_of_mem _ hm)) hnd2.2 hdisj2
    refine ⟨ps, ?_⟩
    simp only [List.map_cons, traverseList, hstep, traverseInto, hrec]
    simp

/-- Claim C1, amended: `serialize` produces a flat content record mapping
each string leaf to its innermost key; for a unit whose data is itself a
flat all-string table (no `references` key, no embeddings, distinct keys)
the content equals the parsed source data, but nested structure is
flattened (see the counterexample), not preserved. -/
theorem c1_amended_flat_identity (store : Store) (nm lc pth : String)
    (flat : List (String × String))
    (href : ∀ kv ∈ flat, kv.1 ≠ "references")
    (hnd : (flat.map (fun kv => kv.1)).Nodup)
    (hne : ∀ kv ∈ flat, embedScan kv.2.data = []) :
    ∃ ps, Translation.serialize store
        ⟨nm, lc, pth, flat.map (fun kv => (kv.1, TomlValue.str kv.2))⟩
      = .ok ⟨nm, lc, pth, flat, ps⟩ := by
  have hrefs : referencesEntries ⟨nm, lc, pth, flat.map (fun kv => (kv.1, TomlValue.str kv.2))⟩ = [] := by
    simp only [referencesEntries, referencesValue]
    rw [assocLookup_eq_none]
    intro kv hm
    obtain ⟨kv0, hm0, rfl⟩ := List.mem_map.mp hm
    exact href kv0 hm0
  have hcd : contentData ⟨nm, lc, pth, flat.map (fun kv => (kv.1, TomlValue.str kv.2))⟩
      = flat.map (fun kv => (kv.1, TomlValue.str kv.2)) := by
    simp only [contentData]
    rw [List.filter_eq_self.mpr]
    intro kv hm
    obtain ⟨kv0, hm0, rfl⟩ := List.mem_map.mp hm
    simpa using href kv0 hm0
  obtain ⟨ps, hrec⟩ := traverseList_flat (serializeGo 1) store
    ⟨nm, lc, pth, flat.map (fun kv => (kv.1, TomlValue.str kv.2))⟩
    [lc ++ "/" ++ nm] flat [] [] hne hnd (by simp)
  refine ⟨ps, ?_⟩
  rw [serialize_eq_core, hrefs]
  simp only [resolveRefsAux]
  rw [hcd, hrec]
  simp

/-- Witness for `c1_amended_flat_identity` on a concrete flat unit. -/
theorem c1_amended_flat_identity_witness :
    (∀ kv ∈ [("title", "Hello"), ("desc", "World {name}")], Prod.fst kv ≠ "references")
  ∧ ∃ ps, Translation.serialize ([] : Store)
        ⟨"home", "en", "home.toml",
         [("title", "Hello"), ("desc", "World {name}")].map
           (fun kv => (kv.1, TomlValue.str kv.2))⟩
      = .ok ⟨"home", "en", "home.toml", [("title", "Hello"), ("desc", "World {name}")], ps⟩ :=
  ⟨by decide,
   c1_amended_flat_identity [] "home" "en" "home.toml"
     [("title", "Hello"), ("desc", "World {name}")] (by decide) (by decide) (by decide)⟩

/-- Claim C8, counterexample: after a successful run cached `c8PrevResult`,
a new compilation whose scan yields an empty store fails schema validation
(`Primary locale not found`, one of the two failure sources the claim
covers) — and the orchestrator raises without clearing, so the previous
run's cached compiled output is still present in the manager state and is
returned verbatim to a caller of the manager's `compile(force: false)`. -/
theorem c8_counterexample :
    (translettaCompile cfgEn [] c8State).2 = .error "🚨 Primary locale 'en' not found"
  ∧ (translettaCompile cfgEn [] c8State).1.compilationResult = c8PrevResult
  ∧ c8PrevResult ≠ []
  ∧ managerCompile false false (translettaCompile cfgEn [] c8State).1
      = .ok (⟨c8PrevResult, []⟩, (translettaCompile cfgEn [] c8State).1) := by
  refine ⟨by decide, by decide, by decide, rfl⟩

/-- Claim C8, amended: on a compilation failure caused by resolution
diagnostics the orchestrator does clear the compiled result before
raising; but on a schema-validation failure it raises without touching the
manager's cached `compilationResult`, so the previous run's compiled
output survives a failed compile. -/
theorem c8_amended_clearing (cfg : Config) (scanned : Store) (st0 : ManagerState)
    (hproj : cfg.projects = none) :
    (∀ m, validateSchema scanned cfg.primaryLocale = .error m →
      translettaCompile cfg scanned st0
        = (⟨scanned, st0.compilationResult⟩, .error m))
  ∧ (∀ res st2, validateSchema scanned cfg.primaryLocale = .ok () →
      managerCompile true true ⟨scanned, st0.compilationResult⟩ = .ok (res, st2) →
      res.diagnostics ≠ [] →
      translettaCompile cfg scanned st0
        = ({ st2 with compilationResult := [] }, .error (aggregateMsg res.diagnostics))) := by
  constructor
  · intro m hv
    unfold translettaCompile
    rw [hproj]
    simp only [Option.isSome_none, Bool.false_eq_true, if_false]
    rw [hv]
  · intro res st2 hv hmc hd
    unfold translettaCompile
    rw [hproj]
    simp only [Option.isSome_none, Bool.false_eq_true, if_false, hv, hmc]
    rw [if_pos (List.length_pos.mpr hd)]

/-- Witness for `c8_amended_clearing`: the validation-failure conjunct at
the `c8State` fixture — the stale cached result is retained. -/
theorem c8_amended_clearing_witness :
    cfgEn.projects = none
  ∧ translettaCompile cfgEn [] c8State
      = (⟨[], c8PrevResult⟩, .error "🚨 Primary locale 'en' not found") :=
  ⟨rfl, (c8_amended_clearing cfgEn [] c8State rfl).1 _ (by decide)⟩

/-- Claim C9: with a populated compilation cache, `compile(force: false)`
returns the stored collection with no recomputation and leaves the state
untouched — so calling it twice returns the identical cached collection
both times — while `compile(force: true)` recomputes from the scanned
store alone: its outcome is independent of whatever compiled result was
cached before. -/
theorem c9_cache_reuse (d1 d2 : Bool) (st : ManagerState)
    (h : st.compilationResult ≠ []) :
    managerCompile false d1 st = .ok (⟨st.compilationResult, []⟩, st)
  ∧ (∀ X Y, managerCompile true d2 ⟨st.cache, X⟩ = managerCompile true d2 ⟨st.cache, Y⟩) := by
  constructor
  · unfold managerCompile
    have hl : decide (0 < st.compilationResult.length) = true := by
      simpa using List.length_pos.mpr h
    simp [hl]
  · intro X Y
    unfold managerCompile
    simp only [Bool.not_true, Bool.false_and, Bool.false_eq_true, if_false]

/-- Witness for `c9_cache_reuse` at the `c9State` fixture. -/
theorem c9_cache_reuse_witness :
    c9State.compilationResult ≠ []
  ∧ managerCompile false true c9State = .ok (⟨c9State.compilationResult, []⟩, c9State)
  ∧ managerCompile true true ⟨c9State.cache, []⟩
      = managerCompile true true ⟨c9State.cache, c9State.compilationResult⟩ :=
  ⟨by decide, (c9_cache_reuse true true c9State (by decide)).1,
   (c9_cache_reuse true true c9State (by decide)).2 [] _⟩

/-- `Set.has` membership on key lists. -/
theorem jsHas_iff (l : List String) (k : String) : jsHas l k = true ↔ k ∈ l := by
  simp [jsHas, List.any_eq_true]

/-- Claim C7: with primary `en` owning units `home` and `common` and
secondary `fr` owning only a `home` whose key-path set equals the
primary's, schema validation collects exactly the one missing-file
discrepancy for `fr/common` (in particular, none for `home`), and the
orchestrator raises the aggregate schema error without ever reaching
resolution — the manager's compilation state is left untouched. -/
theorem c7_missing_file_validation (dHome1 dCommon dHome2 : List (String × TomlValue))
    (hkeys : ∀ k, k ∈ extractKeys dHome1 ↔ k ∈ extractKeys dHome2) (st0 : ManagerState) :
    schemaErrorsList (c7Cache dHome1 dCommon dHome2) "en" (c7Primary dHome1 dCommon)
      = ["❌ Missing file: fr/common.toml (exists in en)"]
  ∧ translettaCompile cfgEn (c7Cache dHome1 dCommon dHome2) st0
      = (⟨c7Cache dHome1 dCommon dHome2, st0.compilationResult⟩,
         .error ("🚨 Schema validation failed! All locales must match en:\n\n" ++
           "❌ Missing file: fr/common.toml (exists in en)")) := by
  have herrs : schemaErrorsList (c7Cache dHome1 dCommon dHome2) "en" (c7Primary dHome1 dCommon)
      = ["❌ Missing file: fr/common.toml (exists in en)"] := by
    simp only [schemaErrorsList, localeSchemaErrors, c7Cache, c7Primary, jsHas, assocLookup]
    simp
    exact ⟨fun a ha => (hkeys a).mp ha, fun a ha => (hkeys a).mpr ha⟩
  refine ⟨herrs, ?_⟩
  have hv : validateSchema (c7Cache dHome1 dCommon dHome2) "en"
      = .error ("🚨 Schema validation failed! All locales must match en:\n\n" ++
          "❌ Missing file: fr/common.toml (exists in en)") := by
    unfold validateSchema
    have hsl : storeLookup (c7Cache dHome1 dCommon dHome2) "en"
        = some (c7Primary dHome1 dCommon) := rfl
    simp only [hsl, herrs]
    rfl
  unfold translettaCompile
  simp only [cfgEn, Option.isSome_none, Bool.false_eq_true, if_false, hv]

/-- Witness for `c7_missing_file_validation` at concrete unit data (the
`fr` home carrying the same data as the `en` home). -/
theorem c7_missing_file_validation_witness :
    translettaCompile cfgEn (c7Cache c7DHome c7DCommon c7DHome) ⟨[], []⟩
      = (⟨c7Cache c7DHome c7DCommon c7DHome, []⟩,
         .error ("🚨 Schema validation failed! All locales must match en:\n\n" ++
           "❌ Missing file: fr/common.toml (exists in en)")) :=
  (c7_missing_file_validation c7DHome c7DCommon c7DHome (fun _ => Iff.rfl) ⟨[], []⟩).2

/-- Membership in the deduplicated key sequence. -/
theorem mem_dedupKeys (k : String) : ∀ (seen l : List String),
    k ∈ dedupKeys seen l ↔ (k ∈ l ∧ k ∉ seen)
  | seen, [] => by simp [dedupKeys]
  | seen, x :: rest => by
    have hcont : (seen.contains x = true) ↔ x ∈ seen := by simp
    simp only [dedupKeys]
    cases hx : seen.contains x with
    | true =>
      have hxs : x ∈ seen := hcont.mp hx
      rw [if_pos rfl, mem_dedupKeys k seen rest]
      simp only [List.mem_cons]
      constructor
      · exact fun h => ⟨Or.inr h.1, h.2⟩
      · rintro ⟨hk | hk, hns⟩
        · exact absurd (hk ▸ hxs) hns
        · exact ⟨hk, hns⟩
    | false =>
      have hxs : x ∉ seen := fun hmem => by
        rw [hcont.mpr hmem] at hx
        cases hx
      rw [if_neg (by simp)]
      simp only [List.mem_cons, mem_dedupKeys k (x :: seen) rest]
      constructor
      · rintro (rfl | ⟨hk, hns⟩)
        · exact ⟨Or.inl rfl, hxs⟩
        · exact ⟨Or.inr hk, fun hs => hns (Or.inr hs)⟩
      · rintro ⟨rfl | hk, hns⟩
        · exact Or.inl rfl
        · by_cases hkx : k = x
          · exact Or.inl hkx
          · refine Or.inr ⟨hk, fun hs => ?_⟩
            rcases hs with h | h
            · exact hkx h
            · exact hns h

/-- `extractKeys` has the same members as the raw pre-order sequence. -/
theorem mem_extractKeys (k : String) (d : List (String × TomlValue)) :
    k ∈ extractKeys d ↔ k ∈ extractKeysRaw "" d := by
  simp [extractKeys, mem_dedupKeys]

/-- Splitting the raw key sequence of a unit whose data starts with a
`references` table. -/
theorem extractKeysRaw_refsHead (R : List (String × String)) (C : List (String × TomlValue)) :
    extractKeysRaw "" (("references", refsTable R) :: C)
      = extractKeysRaw "references" (R.map (fun kv => (kv.1, TomlValue.str kv.2)))
        ++ extractKeysRaw "" C := by
  simp [extractKeysRaw, extractKeysVal, refsTable]

/-- The raw key sequence of a flat string table under a non-empty prefix. -/
theorem extractKeysRaw_flatRefs : ∀ (R : List (String × String)),
    extractKeysRaw "references" (R.map (fun kv => (kv.1, TomlValue.str kv.2)))
      = R.map (fun kv => "references." ++ kv.1)
  | [] => rfl
  | (k, v) :: rest => by
    simp only [List.map_cons, extractKeysRaw, extractKeysVal, extractKeysRaw_flatRefs rest]
    rw [if_neg (by decide)]
    rfl

/-- Left cancellation of string concatenation. -/
theorem strAppend_cancel (p x y : String) (h : p ++ x = p ++ y) : x = y := by
  have hd := congrArg String.data h
  simp only [String.data_append] at hd
  have hxy := List.append_cancel_left hd
  cases x
  cases y
  exact congrArg String.mk hxy

/-- A concatenation starts with its left part. -/
theorem sStartsWith_append (p x : String) : sStartsWith (p ++ x) p = true := by
  simp only [sStartsWith, String.data_append]
  rw [List.isPrefixOf_iff_prefix]
  exact List.prefix_append _ _

/-- Claim C10: schema validation computes key-path sets over the whole
parsed data including the reserved `references` table.  For two locales
whose content trees are identical (`C` in both units) but whose flat
`references` alias tables differ (`a` declared in the primary's table
only), validation collects a missing-key discrepancy on `references.a`,
every collected discrepancy lies on a `references.`-prefixed path, and
validation fails — although the `references` table is excluded from the
data the serializer traverses into emitted content. -/
theorem c10_references_in_schema (R1 R2 : List (String × String))
    (C : List (String × TomlValue)) (a : String)
    (ha1 : a ∈ R1.map (fun kv => kv.1))
    (ha2 : a ∉ R2.map (fun kv => kv.1))
    (hC : ∀ k ∈ extractKeysRaw "" C, sStartsWith k "references." = false)
    (hC2 : ∀ kv ∈ C, kv.1 ≠ "references") :
    ("❌ Missing key: fr/home.toml → references." ++ a)
      ∈ schemaErrorsList (c10Cache R1 R2 C) "en" [("home", c10Unit "en" R1 C)]
  ∧ (∀ e ∈ schemaErrorsList (c10Cache R1 R2 C) "en" [("home", c10Unit "en" R1 C)],
      ∃ b, e = "❌ Missing key: fr/home.toml → references." ++ b
         ∨ e = "❌ Extra key: fr/home.toml → references." ++ b)
  ∧ validateSchema (c10Cache R1 R2 C) "en" ≠ .ok ()
  ∧ contentData (c10Unit "en" R1 C) = C := by
  have hmem : ∀ (R : List (String × String)) (k : String),
      k ∈ extractKeys (("references", refsTable R) :: C)
        ↔ (k ∈ R.map (fun kv => "references." ++ kv.1) ∨ k ∈ extractKeysRaw "" C) := by
    intro R k
    rw [mem_extractKeys, extractKeysRaw_refsHead, extractKeysRaw_flatRefs, List.mem_append]
  have hK1a : ("references." ++ a) ∈ extractKeys (("references", refsTable R1) :: C) := by
    refine (hmem R1 _).mpr (Or.inl ?_)
    obtain ⟨kv, hkv, rfl⟩ := List.mem_map.mp ha1
    exact List.mem_map.mpr ⟨kv, hkv, rfl⟩
  have hK2a : ("references." ++ a) ∉ extractKeys (("references", refsTable R2) :: C) := by
    intro hmk
    rcases (hmem R2 _).mp hmk with hr | hc
    · obtain ⟨kv, hkv, heq⟩ := List.mem_map.mp hr
      exact ha2 (List.mem_map.mpr ⟨kv, hkv, strAppend_cancel "references." kv.1 a heq⟩)
    · have hpre := hC _ hc
      rw [sStartsWith_append] at hpre
      cases hpre
  have hred : schemaErrorsList (c10Cache R1 R2 C) "en" [("home", c10Unit "en" R1 C)]
      = ((extractKeys (("references", refsTable R1) :: C)).filter
          (fun k => !jsHas (extractKeys (("references", refsTable R2) :: C)) k)).map
          (fun k => "❌ Missing key: fr/home.toml → " ++ k)
        ++ ((extractKeys (("references", refsTable R2) :: C)).filter
          (fun k => !jsHas (extractKeys (("references", refsTable R1) :: C)) k)).map
          (fun k => "❌ Extra key: fr/home.toml → " ++ k) := by
    simp [schemaErrorsList, localeSchemaErrors, c10Cache, c10Unit, assocLookup, jsHas]
  have hmiss : ("❌ Missing key: fr/home.toml → references." ++ a)
      ∈ schemaErrorsList (c10Cache R1 R2 C) "en" [("home", c10Unit "en" R1 C)] := by
    rw [hred]
    refine List.mem_append.mpr (Or.inl (List.mem_map.mpr ⟨"references." ++ a, ?_, ?_⟩))
    · refine List.mem_filter.mpr ⟨hK1a, ?_⟩
      have hfalse : jsHas (extractKeys (("references", refsTable R2) :: C))
          ("references." ++ a) = false := by
        cases hb : jsHas (extractKeys (("references", refsTable R2) :: C))
            ("references." ++ a) with
        | false => rfl
        | true => exact absurd ((jsHas_iff _ _).mp hb) hK2a
      simp [hfalse]
    · have hlit : "❌ Missing key: fr/home.toml → " ++ "references."
          = "❌ Missing key: fr/home.toml → references." := by decide
      rw [← String.append_assoc, hlit]
  refine ⟨hmiss, ?_, ?_, ?_⟩
  · intro e he
    rw [hred] at he
    rcases List.mem_append.mp he with hm | hm
    · obtain ⟨k, hkf, rfl⟩ := List.mem_map.mp hm
      obtain ⟨hk1, hflt⟩ := List.mem_filter.mp hkf
      have hk2 : k ∉ extractKeys (("references", refsTable R2) :: C) := by
        intro hk2m
        rw [((jsHas_iff _ _).mpr hk2m)] at hflt
        cases hflt
      rcases (hmem R1 k).mp hk1 with hr | hc
      · obtain ⟨kv, _, rfl⟩ := List.mem_map.mp hr
        refine ⟨kv.1, Or.inl ?_⟩
        have hlit : "❌ Missing key: fr/home.toml → " ++ "references."
            = "❌ Missing key: fr/home.toml → references." := by decide
        rw [← String.append_assoc, hlit]
      · exact absurd ((hmem R2 k).mpr (Or.inr hc)) hk2
    · obtain ⟨k, hkf, rfl⟩ := List.mem_map.mp hm
      obtain ⟨hk2, hflt⟩ := List.mem_filter.mp hkf
      have hk1 : k ∉ extractKeys (("references", refsTable R1) :: C) := by
        intro hk1m
        rw [((jsHas_iff _ _).mpr hk1m)] at hflt
        cases hflt
      rcases (hmem R2 k).mp hk2 with hr | hc
      · obtain ⟨kv, _, rfl⟩ := List.mem_map.mp hr
        refine ⟨kv.1, Or.inr ?_⟩
        have hlit : "❌ Extra key: fr/home.toml → " ++ "references."
            = "❌ Extra key: fr/home.toml → references." := by decide
        rw [← String.append_assoc, hlit]
      · exact absurd ((hmem R1 k).mpr (Or.inr hc)) hk1
  · unfold validateSchema
    have hsl : storeLookup (c10Cache R1 R2 C) "en" = some [("home", c10Unit "en" R1 C)] := rfl
    simp only [hsl]
    rw [if_neg]
    · simp
    · simp only [List.isEmpty_iff]
      exact List.ne_nil_of_mem hmiss
  · simp only [contentData, c10Unit]
    rw [List.filter_cons_of_neg (by simp)]
    rw [List.filter_eq_self.mpr]
    intro kv hm
    simpa using hC2 kv hm

/-- Witness for `c10_references_in_schema` at a concrete pair of locales:
identical content `title = "T"`, primary alias table `\x7ba1\x7d`,
secondary alias table `\x7bb1\x7d`. -/
theorem c10_references_in_schema_witness :
    ("❌ Missing key: fr/home.toml → references.a1")
      ∈ schemaErrorsList
          (c10Cache [("a1", "@x")] [("b1", "@x")] [("title", TomlValue.str "T")])
          "en" [("home", c10Unit "en" [("a1", "@x")] [("title", TomlValue.str "T")])]
  ∧ validateSchema (c10Cache [("a1", "@x")] [("b1", "@x")] [("title", TomlValue.str "T")]) "en"
      ≠ .ok () := by
  have h := c10_references_in_schema [("a1", "@x")] [("b1", "@x")]
    [("title", TomlValue.str "T")] "a1" (by decide) (by decide) (by decide) (by decide)
  exact ⟨h.1, h.2.2.1⟩

end Transletta
